import Mathlib

/-!
Shallow embedding of the SpatialHash class of the pixi-spatial-hash
repository (src/lib/pixi-spatial-hash.mjs, the build of the current
TypeScript source; the legacy artifact src/lib/SpatialHash.js predates it).
JS numbers are modelled as exact rationals, the JS Map from string keys to
Set of nodes as a function from cell coordinates to an optional finite set,
and entity handles as natural numbers (identity-compared, as in JS Sets).
The string cell key produced by hashPoint, of the form "cx|cy", is
injective in the pair (cx, cy), so keys are modelled as the pair itself.
The bounds-provider capability (the getBounds method of display objects)
is modelled as an explicit environment argument env from handles to
rectangles wherever the source calls getBounds.
-/

namespace PixiSpatialHash

/-- An axis-aligned rectangle (the bounds view of a PIXI.Rectangle):
left, top, right and bottom coordinates, modelled as exact rationals. -/
structure Rect where
  left : ℚ
  top : ℚ
  right : ℚ
  bottom : ℚ
deriving DecidableEq

/-- hashPoint(x, y) of the source returns the string built from
Math.floor(x / cellSize) and Math.floor(y / cellSize); the string
determines and is determined by the two integers, so the pair stands in
for it. -/
def hashPoint (cellSize : ℚ) (x y : ℚ) : ℤ × ℤ :=
  (⌊x / cellSize⌋, ⌊y / cellSize⌋)

/-- hashBounds(bounds, callback) of the source computes
minX = Math.floor(bounds.left * sizeInv) * cellSize with
sizeInv = 1 / cellSize (and likewise minY, maxX, maxY; in exact
arithmetic left * (1 / cellSize) is left / cellSize) and runs two nested
loops, y from maxY down while y >= minY and x from maxX down while
x >= minX, both stepping by cellSize, invoking callback(hashPoint(x, y))
each iteration. Every loop value is an exact integer multiple of
cellSize: for cellSize > 0 the y loop visits exactly the values
(maxCy - i) * cellSize for i = 0 .. (maxCy - minCy), that is
(maxCy - minCy + 1).toNat iterations (none when maxCy < minCy), and the
x loop likewise, so the loop pair is embedded as a list over those
iteration counts with hashPoint applied to the very multiples of
cellSize the source passes it. The list holds the callback arguments in
call order. -/
def hashBounds (cellSize : ℚ) (bounds : Rect) : List (ℤ × ℤ) :=
  let minCx : ℤ := ⌊bounds.left / cellSize⌋
  let maxCx : ℤ := ⌊bounds.right / cellSize⌋
  let minCy : ℤ := ⌊bounds.top / cellSize⌋
  let maxCy : ℤ := ⌊bounds.bottom / cellSize⌋
  (List.range (maxCy - minCy + 1).toNat).flatMap fun i : ℕ =>
    (List.range (maxCx - minCx + 1).toNat).map fun j : ℕ =>
      hashPoint cellSize ((maxCx - (j : ℤ) : ℤ) * cellSize)
        ((maxCy - (i : ℤ) : ℤ) * cellSize)

/-- The SpatialHash object: the fixed cell size together with the bucket
map. The JS Map of string keys to Set of handles is a function from cell
coordinates to an optional finite set of handles; none models a key that
is absent from the Map. -/
structure Grid where
  cellSize : ℚ
  buckets : ℤ × ℤ → Option (Finset ℕ)

/-- reset() iterates the existing keys of the Map and re-binds each one
to a fresh empty set; keys absent from the Map stay absent. -/
def reset (g : Grid) : Grid :=
  { g with buckets := fun k => (g.buckets k).map fun _ => (∅ : Finset ℕ) }

/-- constructor(cellSize) stores cellSize, creates an empty Map and calls
reset(), which is a no-op on the empty Map. The source performs no
validation of cellSize whatsoever. -/
def mkGrid (cellSize : ℚ) : Grid :=
  reset { cellSize := cellSize, buckets := fun _ => none }

/-- The set of entities the bucket at key k currently holds (the empty
set when the key is absent from the Map). -/
def bucketOf (g : Grid) (k : ℤ × ℤ) : Finset ℕ :=
  (g.buckets k).getD ∅

/-- One callback invocation inside put: look the bucket up, create an
empty one under the key if absent, and add the object to it. Fetching
with default empty and re-binding the key to the enlarged set is
observably the Map state the source leaves behind in both branches. -/
def putCell (object : ℕ) (g : Grid) (k : ℤ × ℤ) : Grid :=
  { g with buckets := fun k2 =>
      if k2 = k then some (insert object (bucketOf g k)) else g.buckets k2 }

/-- put(object, bounds): for every hash that hashBounds produces for the
bounds, add the object to that bucket, creating the bucket when absent.
The source performs no validation of the bounds and has no error path. -/
def put (g : Grid) (object : ℕ) (bounds : Rect) : Grid :=
  (hashBounds g.cellSize bounds).foldl (putCell object) g

/-- remove(object): delete the object from every bucket of the Map; keys
are never deleted. -/
def remove (g : Grid) (object : ℕ) : Grid :=
  { g with buckets := fun k => (g.buckets k).map fun s => s.erase object }

/-- update(object, bounds): remove then put. -/
def update (g : Grid) (object : ℕ) (bounds : Rect) : Grid :=
  put (remove g object) object bounds

/-- The boolean test of search: objectBounds.right >= bounds.left and
objectBounds.left <= bounds.right and objectBounds.bottom >= bounds.top
and objectBounds.top <= bounds.bottom. -/
def intersects (objectBounds bounds : Rect) : Bool :=
  decide (bounds.left ≤ objectBounds.right) &&
    decide (objectBounds.left ≤ bounds.right) &&
    decide (bounds.top ≤ objectBounds.bottom) &&
    decide (objectBounds.top ≤ bounds.bottom)

/-- search(bounds): for every hash in the cell range of bounds look the
bucket up and, when present, keep those of its members whose bounds, as
reported right now by the bounds provider env (the source calls
object.getBounds(false, tempRect) here, re-fetching from the object),
intersect the query bounds. The result is the set of kept members. -/
def search (g : Grid) (bounds : Rect) (env : ℕ → Rect) : Finset ℕ :=
  (hashBounds g.cellSize bounds).foldl
    (fun acc k =>
      match g.buckets k with
      | some bucket => acc ∪ bucket.filter fun object => intersects (env object) bounds = true
      | none => acc)
    (∅ : Finset ℕ)

/-- The public operations of the SpatialHash class, for stating
properties over arbitrary call sequences. put and update carry the
bounds the caller supplied (the source evaluates the default argument
object.getBounds() at the call site, so an explicit rectangle always
reaches the method body). -/
inductive Op where
  | put (object : ℕ) (bounds : Rect)
  | update (object : ℕ) (bounds : Rect)
  | remove (object : ℕ)
  | search (bounds : Rect)
  | reset

/-- Effect of one operation on the grid; search reads the bucket map but
never writes it. -/
def applyOp (g : Grid) : Op → Grid
  | .put object bounds => put g object bounds
  | .update object bounds => update g object bounds
  | .remove object => remove g object
  | .search _ => g
  | .reset => reset g

/-- Ghost record of the bounds each entity was last inserted or updated
with; none when the entity was never inserted, or was removed, or the
grid was reset since. -/
def applyGhost (lb : ℕ → Option Rect) : Op → (ℕ → Option Rect)
  | .put object bounds => fun e => if e = object then some bounds else lb e
  | .update object bounds => fun e => if e = object then some bounds else lb e
  | .remove object => fun e => if e = object then none else lb e
  | .search _ => lb
  | .reset => fun _ => none

/-- Run a sequence of operations on a grid. -/
def runOps (g : Grid) (ops : List Op) : Grid :=
  ops.foldl applyOp g

/-- Run a sequence of operations on the ghost last-bounds record. -/
def runGhost (lb : ℕ → Option Rect) (ops : List Op) : ℕ → Option Rect :=
  ops.foldl applyGhost lb

/-- The object is a member of no bucket of the grid. -/
def NotPresent (g : Grid) (object : ℕ) : Prop :=
  ∀ k, object ∉ bucketOf g k

/-- A call sequence in which put is only applied to an entity that is
not currently in any bucket; re-insertion of a present entity goes
through update (which the source documents as remove-then-put). -/
def SafeTrace : Grid → List Op → Prop
  | _, [] => True
  | g, op :: rest =>
    (match op with
     | .put object _ => NotPresent g object
     | _ => True) ∧ SafeTrace (applyOp g op) rest

/-- The footprint invariant: an entity is a member of a bucket exactly
when the ghost record holds bounds for it whose cell range contains that
bucket key. -/
def Inv (g : Grid) (lb : ℕ → Option Rect) : Prop :=
  ∀ e k, e ∈ bucketOf g k ↔ ∃ b, lb e = some b ∧ k ∈ hashBounds g.cellSize b

theorem hashPoint_int_mul (c : ℚ) (hc : c ≠ 0) (m n : ℤ) :
    hashPoint c ((m : ℚ) * c) ((n : ℚ) * c) = (m, n) := by
  simp [hashPoint, mul_div_cancel_right₀ _ hc]

theorem hashBounds_eq_map (c : ℚ) (hc : c ≠ 0) (b : Rect) :
    hashBounds c b =
      (List.range (⌊b.bottom / c⌋ - ⌊b.top / c⌋ + 1).toNat).flatMap fun i : ℕ =>
        (List.range (⌊b.right / c⌋ - ⌊b.left / c⌋ + 1).toNat).map fun j : ℕ =>
          (⌊b.right / c⌋ - (j : ℤ), ⌊b.bottom / c⌋ - (i : ℤ)) := by
  simp only [hashBounds, hashPoint_int_mul c hc]

theorem mem_hashBounds (c : ℚ) (hc : 0 < c) (b : Rect) (cx cy : ℤ) :
    (cx, cy) ∈ hashBounds c b ↔
      (⌊b.left / c⌋ ≤ cx ∧ cx ≤ ⌊b.right / c⌋ ∧
        ⌊b.top / c⌋ ≤ cy ∧ cy ≤ ⌊b.bottom / c⌋) := by
  rw [hashBounds_eq_map c (ne_of_gt hc), List.mem_flatMap]
  constructor
  · rintro ⟨i, hi, hmem⟩
    rw [List.mem_map] at hmem
    obtain ⟨j, hj, hpair⟩ := hmem
    rw [List.mem_range] at hi hj
    cases hpair
    omega
  · rintro ⟨h1, h2, h3, h4⟩
    refine ⟨(⌊b.bottom / c⌋ - cy).toNat, List.mem_range.mpr (by omega), List.mem_map.mpr ?_⟩
    refine ⟨(⌊b.right / c⌋ - cx).toNat, List.mem_range.mpr (by omega), ?_⟩
    exact Prod.ext (by omega) (by omega)

theorem nodup_hashBounds (c : ℚ) (hc : c ≠ 0) (b : Rect) :
    (hashBounds c b).Nodup := by
  rw [hashBounds_eq_map c hc, List.nodup_flatMap]
  constructor
  · intro i _
    have hinj : Function.Injective
        (fun j : ℕ => ((⌊b.right / c⌋ - (j : ℤ), ⌊b.bottom / c⌋ - (i : ℤ)) : ℤ × ℤ)) := by
      intro j1 j2 h
      simp only [Prod.mk.injEq] at h
      omega
    exact List.Nodup.map hinj (List.nodup_range _)
  · refine List.Pairwise.imp ?_ (List.pairwise_lt_range _)
    intro i1 i2 hlt
    simp only [Function.onFun]
    intro x hx1 hx2
    rw [List.mem_map] at hx1 hx2
    obtain ⟨j1, hj1, rfl⟩ := hx1
    obtain ⟨j2, hj2, h⟩ := hx2
    simp only [Prod.mk.injEq] at h
    omega

theorem cellSize_foldl_putCell (e : ℕ) (l : List (ℤ × ℤ)) (g : Grid) :
    (l.foldl (putCell e) g).cellSize = g.cellSize := by
  induction l generalizing g with
  | nil => rfl
  | cons a l ih => simpa [putCell] using ih (putCell e g a)

theorem cellSize_put (g : Grid) (e : ℕ) (b : Rect) :
    (put g e b).cellSize = g.cellSize :=
  cellSize_foldl_putCell e _ g

theorem bucketOf_putCell (g : Grid) (e : ℕ) (a k : ℤ × ℤ) :
    bucketOf (putCell e g a) k =
      if k = a then insert e (bucketOf g a) else bucketOf g k := by
  by_cases h : k = a <;> simp [bucketOf, putCell, h]

theorem bucketOf_foldl_putCell (e : ℕ) (l : List (ℤ × ℤ)) (g : Grid) (k : ℤ × ℤ) :
    bucketOf (l.foldl (putCell e) g) k =
      if k ∈ l then insert e (bucketOf g k) else bucketOf g k := by
  induction l generalizing g with
  | nil => simp
  | cons a l ih =>
    rw [List.foldl_cons, ih (putCell e g a)]
    simp only [bucketOf_putCell, List.mem_cons]
    by_cases hka : k = a
    · subst hka
      by_cases hkl : k ∈ l <;> simp [hkl, Finset.insert_idem]
    · by_cases hkl : k ∈ l <;> simp [hka, hkl]

theorem bucketOf_put (g : Grid) (e : ℕ) (b : Rect) (k : ℤ × ℤ) :
    bucketOf (put g e b) k =
      if k ∈ hashBounds g.cellSize b then insert e (bucketOf g k) else bucketOf g k :=
  bucketOf_foldl_putCell e _ g k

theorem buckets_foldl_putCell_eq_none (e : ℕ) (l : List (ℤ × ℤ)) (g : Grid) (k : ℤ × ℤ) :
    (l.foldl (putCell e) g).buckets k = none ↔ (g.buckets k = none ∧ k ∉ l) := by
  induction l generalizing g with
  | nil => simp
  | cons a l ih =>
    rw [List.foldl_cons, ih (putCell e g a)]
    by_cases hka : k = a <;> simp [putCell, hka]

theorem buckets_eq_some_of_mem_bucketOf (g : Grid) (e : ℕ) (k : ℤ × ℤ)
    (h : e ∈ bucketOf g k) : g.buckets k = some (bucketOf g k) := by
  unfold bucketOf at *
  cases hb : g.buckets k with
  | none => rw [hb] at h; simp at h
  | some s => simp [hb]

theorem bucketOf_remove (g : Grid) (e : ℕ) (k : ℤ × ℤ) :
    bucketOf (remove g e) k = (bucketOf g k).erase e := by
  cases hb : g.buckets k <;> simp [bucketOf, remove, hb]

theorem remove_eq_of_notPresent (g : Grid) (e : ℕ) (h : NotPresent g e) :
    remove g e = g := by
  cases g with
  | mk cs bk =>
    simp only [remove]
    congr 1
    funext k
    cases hb : bk k with
    | none => simp
    | some s =>
      have hs : e ∉ s := by
        have := h k
        simpa [bucketOf, hb] using this
      simp [Finset.erase_eq_of_not_mem hs]

theorem bucketOf_reset (g : Grid) (k : ℤ × ℤ) :
    bucketOf (reset g) k = ∅ := by
  cases hb : g.buckets k <;> simp [bucketOf, reset, hb]

theorem bucketOf_mkGrid (c : ℚ) (k : ℤ × ℤ) :
    bucketOf (mkGrid c) k = ∅ :=
  rfl

theorem intersects_iff (a b : Rect) :
    intersects a b = true ↔
      (b.left ≤ a.right ∧ a.left ≤ b.right ∧ b.top ≤ a.bottom ∧ a.top ≤ b.bottom) := by
  simp [intersects, Bool.and_eq_true, decide_eq_true_eq, and_assoc]

theorem mem_search_foldl (g : Grid) (b : Rect) (env : ℕ → Rect) (e : ℕ)
    (l : List (ℤ × ℤ)) (acc : Finset ℕ) :
    (e ∈ l.foldl
        (fun acc2 k =>
          match g.buckets k with
          | some bucket => acc2 ∪ bucket.filter fun object => intersects (env object) b = true
          | none => acc2)
        acc) ↔
      (e ∈ acc ∨ ((∃ k ∈ l, e ∈ bucketOf g k) ∧ intersects (env e) b = true)) := by
  induction l generalizing acc with
  | nil => simp
  | cons a l ih =>
    rw [List.foldl_cons, ih]
    cases hb : g.buckets a with
    | none =>
      have hempty : bucketOf g a = ∅ := by simp [bucketOf, hb]
      simp only [List.mem_cons, hempty]
      constructor
      · rintro (h | ⟨⟨k, hk, hmem⟩, hint⟩)
        · exact Or.inl h
        · exact Or.inr ⟨⟨k, Or.inr hk, hmem⟩, hint⟩
      · rintro (h | ⟨⟨k, hk, hmem⟩, hint⟩)
        · exact Or.inl h
        · rcases hk with rfl | hk
          · rw [hempty] at hmem
            exact absurd hmem (Finset.not_mem_empty e)
          · exact Or.inr ⟨⟨k, hk, hmem⟩, hint⟩
    | some s =>
      have hba : bucketOf g a = s := by simp [bucketOf, hb]
      simp only [List.mem_cons, Finset.mem_union, Finset.mem_filter, hba]
      constructor
      · rintro ((h | ⟨hmem, hint⟩) | ⟨⟨k, hk, hmem⟩, hint⟩)
        · exact Or.inl h
        · exact Or.inr ⟨⟨a, Or.inl rfl, hba ▸ hmem⟩, hint⟩
        · exact Or.inr ⟨⟨k, Or.inr hk, hmem⟩, hint⟩
      · rintro (h | ⟨⟨k, hk, hmem⟩, hint⟩)
        · exact Or.inl (Or.inl h)
        · rcases hk with rfl | hk
          · exact Or.inl (Or.inr ⟨hba ▸ hmem, hint⟩)
          · exact Or.inr ⟨⟨k, hk, hmem⟩, hint⟩

theorem mem_search (g : Grid) (b : Rect) (env : ℕ → Rect) (e : ℕ) :
    e ∈ search g b env ↔
      ((∃ k ∈ hashBounds g.cellSize b, e ∈ bucketOf g k) ∧
        intersects (env e) b = true) := by
  rw [search, mem_search_foldl]
  simp

theorem cellSize_remove (g : Grid) (e : ℕ) : (remove g e).cellSize = g.cellSize :=
  rfl

theorem cellSize_update (g : Grid) (e : ℕ) (b : Rect) :
    (update g e b).cellSize = g.cellSize :=
  cellSize_put _ _ _

theorem cellSize_reset (g : Grid) : (reset g).cellSize = g.cellSize :=
  rfl

theorem cellSize_applyOp (g : Grid) (op : Op) : (applyOp g op).cellSize = g.cellSize := by
  cases op <;>
    simp [applyOp, cellSize_put, cellSize_update, cellSize_remove, cellSize_reset]

theorem notPresent_remove (g : Grid) (e : ℕ) : NotPresent (remove g e) e := by
  intro k
  rw [bucketOf_remove]
  exact Finset.not_mem_erase e _

theorem inv_mkGrid (c : ℚ) : Inv (mkGrid c) fun _ => none := by
  intro e k
  simp [bucketOf_mkGrid]

theorem inv_put_notPresent (g : Grid) (lb : ℕ → Option Rect) (e : ℕ) (b : Rect)
    (hinv : Inv g lb) (hfresh : NotPresent g e) :
    Inv (put g e b) fun x => if x = e then some b else lb x := by
  intro e2 k
  rw [bucketOf_put, cellSize_put]
  by_cases he : e2 = e
  · subst he
    by_cases hk : k ∈ hashBounds g.cellSize b
    · simp [hk]
    · rw [if_neg hk]
      constructor
      · intro hmem
        exact absurd hmem (hfresh k)
      · rintro ⟨b2, hb2, hk2⟩
        have hb2e : b = b2 := by simpa using hb2
        subst hb2e
        exact absurd hk2 hk
  · have hstep : e2 ∈ (if k ∈ hashBounds g.cellSize b
        then insert e (bucketOf g k) else bucketOf g k) ↔ e2 ∈ bucketOf g k := by
      by_cases hk : k ∈ hashBounds g.cellSize b <;> simp [hk, he]
    rw [hstep, hinv e2 k]
    simp [he]

theorem inv_remove (g : Grid) (lb : ℕ → Option Rect) (e : ℕ) (hinv : Inv g lb) :
    Inv (remove g e) fun x => if x = e then none else lb x := by
  intro e2 k
  rw [bucketOf_remove, cellSize_remove]
  by_cases he : e2 = e
  · subst he
    simp [Finset.not_mem_erase]
  · rw [Finset.mem_erase]
    simp only [he, if_neg, ne_eq, not_false_eq_true, true_and]
    exact hinv e2 k

theorem inv_update (g : Grid) (lb : ℕ → Option Rect) (e : ℕ) (b : Rect)
    (hinv : Inv g lb) :
    Inv (update g e b) fun x => if x = e then some b else lb x := by
  have h1 := inv_remove g lb e hinv
  have h2 := inv_put_notPresent (remove g e) _ e b h1 (notPresent_remove g e)
  have heq : (fun x => if x = e then some b else if x = e then none else lb x) =
      fun x => if x = e then some b else lb x := by
    funext x
    by_cases hx : x = e <;> simp [hx]
  rw [update]
  rw [heq] at h2
  exact h2

theorem inv_reset (g : Grid) (lb : ℕ → Option Rect) (_hinv : Inv g lb) :
    Inv (reset g) fun _ => none := by
  intro e k
  simp [bucketOf_reset]

theorem inv_applyOp (g : Grid) (lb : ℕ → Option Rect) (op : Op) (hinv : Inv g lb)
    (hsafe : match op with | .put e _ => NotPresent g e | _ => True) :
    Inv (applyOp g op) (applyGhost lb op) := by
  cases op with
  | put e b => exact inv_put_notPresent g lb e b hinv hsafe
  | update e b => exact inv_update g lb e b hinv
  | remove e => exact inv_remove g lb e hinv
  | search b => exact hinv
  | reset => exact inv_reset g lb hinv

theorem inv_runOps (ops : List Op) (g : Grid) (lb : ℕ → Option Rect)
    (hinv : Inv g lb) (hsafe : SafeTrace g ops) :
    Inv (runOps g ops) (runGhost lb ops) := by
  induction ops generalizing g lb with
  | nil => exact hinv
  | cons op rest ih =>
    obtain ⟨hop, hrest⟩ := hsafe
    exact ih (applyOp g op) (applyGhost lb op) (inv_applyOp g lb op hinv hop) hrest

/-- C1: for every grid state and query rectangle, search returns exactly
the entities that are a member of some bucket whose cell lies in the cell
range of the query (the inclusive floor ranges on both axes) and whose
AABB, as reported by the bounds provider at query time, geometrically
intersects the query: right at least query.left, left at most query.right,
bottom at least query.top, top at most query.bottom; an entity failing the
geometric test is never returned even when it shares a cell with the
query. -/
theorem c1_search_exact (g : Grid) (q : Rect) (env : ℕ → Rect) (e : ℕ)
    (hc : 0 < g.cellSize) :
    e ∈ search g q env ↔
      ((∃ cx cy : ℤ,
          (⌊q.left / g.cellSize⌋ ≤ cx ∧ cx ≤ ⌊q.right / g.cellSize⌋ ∧
            ⌊q.top / g.cellSize⌋ ≤ cy ∧ cy ≤ ⌊q.bottom / g.cellSize⌋) ∧
          e ∈ bucketOf g (cx, cy)) ∧
        (q.left ≤ (env e).right ∧ (env e).left ≤ q.right ∧
          q.top ≤ (env e).bottom ∧ (env e).top ≤ q.bottom)) := by
  rw [mem_search, intersects_iff]
  constructor
  · rintro ⟨⟨⟨cx, cy⟩, hk, hmem⟩, hint⟩
    exact ⟨⟨cx, cy, (mem_hashBounds _ hc _ cx cy).mp hk, hmem⟩, hint⟩
  · rintro ⟨⟨cx, cy, hrange, hmem⟩, hint⟩
    exact ⟨⟨(cx, cy), (mem_hashBounds _ hc _ cx cy).mpr hrange, hmem⟩, hint⟩

/-- Witness for C1 at a concrete grid, query and bounds provider. -/
theorem c1_witness :
    (0 : ℚ) < (mkGrid 1).cellSize ∧
      ((0 : ℕ) ∈ search (mkGrid 1) ⟨0, 0, 1, 1⟩ (fun _ => ⟨0, 0, 1, 1⟩) ↔
        ((∃ cx cy : ℤ,
            (⌊(0 : ℚ) / (mkGrid 1).cellSize⌋ ≤ cx ∧ cx ≤ ⌊(1 : ℚ) / (mkGrid 1).cellSize⌋ ∧
              ⌊(0 : ℚ) / (mkGrid 1).cellSize⌋ ≤ cy ∧ cy ≤ ⌊(1 : ℚ) / (mkGrid 1).cellSize⌋) ∧
            (0 : ℕ) ∈ bucketOf (mkGrid 1) (cx, cy)) ∧
          ((0 : ℚ) ≤ 1 ∧ (0 : ℚ) ≤ 1 ∧ (0 : ℚ) ≤ 1 ∧ (0 : ℚ) ≤ 1))) :=
  ⟨one_pos, c1_search_exact (mkGrid 1) ⟨0, 0, 1, 1⟩ (fun _ => ⟨0, 0, 1, 1⟩) 0 one_pos⟩

/-- C2: footprint correctness. For any grid with positive cell size, any
well-formed bounds B and well-formed query rectangle q, and a bounds
provider that reports B for the entity, the entity put with B is in
search(q) exactly when B and q overlap on both axes, for every choice of
cell size and also with negative coordinates. -/
theorem c2_footprint (g : Grid) (e : ℕ) (B q : Rect) (env : ℕ → Rect)
    (hc : 0 < g.cellSize)
    (hB1 : B.left ≤ B.right) (hB2 : B.top ≤ B.bottom)
    (hq1 : q.left ≤ q.right) (hq2 : q.top ≤ q.bottom)
    (henv : env e = B) :
    (e ∈ search (put g e B) q env ↔
      (q.left ≤ B.right ∧ B.left ≤ q.right ∧ q.top ≤ B.bottom ∧ B.top ≤ q.bottom)) := by
  rw [mem_search, intersects_iff, henv, cellSize_put]
  constructor
  · rintro ⟨_, hint⟩
    exact hint
  · rintro ⟨h1, h2, h3, h4⟩
    refine ⟨⟨(⌊max B.left q.left / g.cellSize⌋, ⌊max B.top q.top / g.cellSize⌋), ?_, ?_⟩,
      h1, h2, h3, h4⟩
    · refine (mem_hashBounds _ hc _ _ _).mpr ⟨?_, ?_, ?_, ?_⟩
      · exact Int.floor_mono (div_le_div_of_nonneg_right (le_max_right _ _) hc.le)
      · exact Int.floor_mono (div_le_div_of_nonneg_right (max_le h2 hq1) hc.le)
      · exact Int.floor_mono (div_le_div_of_nonneg_right (le_max_right _ _) hc.le)
      · exact Int.floor_mono (div_le_div_of_nonneg_right (max_le h4 hq2) hc.le)
    · rw [bucketOf_put, if_pos]
      · exact Finset.mem_insert_self e _
      · refine (mem_hashBounds _ hc _ _ _).mpr ⟨?_, ?_, ?_, ?_⟩
        · exact Int.floor_mono (div_le_div_of_nonneg_right (le_max_left _ _) hc.le)
        · exact Int.floor_mono (div_le_div_of_nonneg_right (max_le hB1 h1) hc.le)
        · exact Int.floor_mono (div_le_div_of_nonneg_right (le_max_left _ _) hc.le)
        · exact Int.floor_mono (div_le_div_of_nonneg_right (max_le hB2 h3) hc.le)

/-- Witness for C2 at a concrete grid, entity, bounds and query. -/
theorem c2_witness :
    (0 : ℚ) < (mkGrid 1).cellSize ∧
      ((0 : ℕ) ∈ search (put (mkGrid 1) 0 ⟨0, 0, 1, 1⟩) ⟨-2, -2, 3, 3⟩
          (fun _ => ⟨0, 0, 1, 1⟩) ↔
        ((-2 : ℚ) ≤ 1 ∧ (0 : ℚ) ≤ 3 ∧ (-2 : ℚ) ≤ 1 ∧ (0 : ℚ) ≤ 3)) :=
  ⟨one_pos,
    c2_footprint (mkGrid 1) 0 ⟨0, 0, 1, 1⟩ ⟨-2, -2, 3, 3⟩ (fun _ => ⟨0, 0, 1, 1⟩)
      one_pos (by norm_num) (by norm_num) (by norm_num) (by norm_num) rfl⟩

/-- C3: for every well-formed AABB and positive cell size, hashBounds
invokes its callback exactly once (the produced key list has no
duplicates) for each integer cell coordinate in the inclusive floor
ranges of the bounds, and for no other cell; in particular the minimum
cell for a negative coordinate is its floor, not a truncation toward
zero. -/
theorem c3_hashBounds_cells (c : ℚ) (b : Rect) (hc : 0 < c)
    (_hb1 : b.left ≤ b.right) (_hb2 : b.top ≤ b.bottom) :
    (hashBounds c b).Nodup ∧
      ∀ cx cy : ℤ, ((cx, cy) ∈ hashBounds c b ↔
        (⌊b.left / c⌋ ≤ cx ∧ cx ≤ ⌊b.right / c⌋ ∧
          ⌊b.top / c⌋ ≤ cy ∧ cy ≤ ⌊b.bottom / c⌋)) :=
  ⟨nodup_hashBounds c (ne_of_gt hc) b, fun cx cy => mem_hashBounds c hc b cx cy⟩

/-- Witness for C3 at cell size 10 and a rectangle with negative
coordinates; cell -3 is the floor cell of coordinate -25. -/
theorem c3_witness :
    (0 : ℚ) < 10 ∧
      (((-3 : ℤ), (-3 : ℤ)) ∈ hashBounds 10 ⟨-25, -25, 5, 5⟩ ↔
        (⌊(-25 : ℚ) / 10⌋ ≤ (-3 : ℤ) ∧ (-3 : ℤ) ≤ ⌊(5 : ℚ) / 10⌋ ∧
          ⌊(-25 : ℚ) / 10⌋ ≤ (-3 : ℤ) ∧ (-3 : ℤ) ≤ ⌊(5 : ℚ) / 10⌋)) :=
  ⟨by norm_num,
    (c3_hashBounds_cells 10 ⟨-25, -25, 5, 5⟩ (by norm_num) (by norm_num) (by norm_num)).2
      (-3) (-3)⟩

/-- C4 counterexample: the claimed invariant fails for a sequence that
puts the same entity again with different bounds. With cellSize 1, after
put(0, point rect at the origin) followed by put(0, point rect at (2,2)),
entity 0 is still a member of bucket (0,0), which is outside the cell
range of the bounds of its most recent insert, so the bucket membership
is not exactly the footprint of the most recent bounds. -/
theorem c4_counterexample :
    ¬ Inv (runOps (mkGrid 1) [Op.put 0 ⟨0, 0, 0, 0⟩, Op.put 0 ⟨2, 2, 2, 2⟩])
      (runGhost (fun _ => none) [Op.put 0 ⟨0, 0, 0, 0⟩, Op.put 0 ⟨2, 2, 2, 2⟩]) := by
  intro h
  have hcs : (mkGrid 1).cellSize = 1 := rfl
  have hrun : runOps (mkGrid 1) [Op.put 0 ⟨0, 0, 0, 0⟩, Op.put 0 ⟨2, 2, 2, 2⟩] =
      put (put (mkGrid 1) 0 ⟨0, 0, 0, 0⟩) 0 ⟨2, 2, 2, 2⟩ := rfl
  have hk1 : ((0 : ℤ), (0 : ℤ)) ∈ hashBounds (mkGrid 1).cellSize ⟨0, 0, 0, 0⟩ := by
    rw [hcs]
    exact (mem_hashBounds 1 one_pos _ 0 0).mpr (by norm_num)
  have hmem0 : (0 : ℕ) ∈ bucketOf (put (mkGrid 1) 0 ⟨0, 0, 0, 0⟩) (0, 0) := by
    rw [bucketOf_put, if_pos hk1]
    exact Finset.mem_insert_self 0 _
  have hnotk2 : ((0 : ℤ), (0 : ℤ)) ∉
      hashBounds (put (mkGrid 1) 0 ⟨0, 0, 0, 0⟩).cellSize ⟨2, 2, 2, 2⟩ := by
    rw [cellSize_put, hcs]
    intro hmem
    have := (mem_hashBounds 1 one_pos _ 0 0).mp hmem
    norm_num at this
  have hmem : (0 : ℕ) ∈
      bucketOf (runOps (mkGrid 1) [Op.put 0 ⟨0, 0, 0, 0⟩, Op.put 0 ⟨2, 2, 2, 2⟩]) (0, 0) := by
    rw [hrun, bucketOf_put, if_neg hnotk2]
    exact hmem0
  obtain ⟨b, hb, hk⟩ := (h 0 (0, 0)).mp hmem
  have hghost : runGhost (fun _ => none)
      [Op.put 0 ⟨0, 0, 0, 0⟩, Op.put 0 ⟨2, 2, 2, 2⟩] 0 = some ⟨2, 2, 2, 2⟩ := rfl
  rw [hghost] at hb
  injection hb with hb2
  subst hb2
  have hcs2 : (runOps (mkGrid 1)
      [Op.put 0 ⟨0, 0, 0, 0⟩, Op.put 0 ⟨2, 2, 2, 2⟩]).cellSize = 1 := by
    rw [hrun, cellSize_put, cellSize_put, hcs]
  rw [hcs2] at hk
  have := (mem_hashBounds 1 one_pos _ 0 0).mp hk
  norm_num at this

/-- C4 (amended): the footprint invariant holds after any operation
sequence from a fresh grid in which put is only applied to entities not
currently present (re-insertion under new bounds going through update,
the remove-then-put the source documents); put of an already present
entity does not clear its old buckets, as the counterexample shows.
Every entity in any bucket then belongs to exactly the buckets in the
cell range of its most recent insert or update bounds. -/
theorem c4_footprint_invariant (c : ℚ) (ops : List Op)
    (hsafe : SafeTrace (mkGrid c) ops) :
    Inv (runOps (mkGrid c) ops) (runGhost (fun _ => none) ops) :=
  inv_runOps ops (mkGrid c) _ (inv_mkGrid c) hsafe

/-- Witness for C4 at a concrete one-put trace. -/
theorem c4_witness :
    Inv (runOps (mkGrid 1) [Op.put 0 ⟨0, 0, 1, 1⟩])
      (runGhost (fun _ => none) [Op.put 0 ⟨0, 0, 1, 1⟩]) :=
  c4_footprint_invariant 1 [Op.put 0 ⟨0, 0, 1, 1⟩]
    ⟨fun _ => Finset.not_mem_empty 0, trivial⟩

/-- C5 counterexample: query results do depend on the bounds provider
output at query time. Entity 0 is inserted with the unit square at the
origin; with a provider still reporting that rectangle the query returns
it, and with a provider now reporting a far-away rectangle the very same
grid state no longer returns it, although no insert or update happened
in between. -/
theorem c5_counterexample :
    (0 : ℕ) ∈ search (put (mkGrid 1) 0 ⟨0, 0, 1, 1⟩) ⟨0, 0, 1, 1⟩
        (fun _ => ⟨0, 0, 1, 1⟩) ∧
      (0 : ℕ) ∉ search (put (mkGrid 1) 0 ⟨0, 0, 1, 1⟩) ⟨0, 0, 1, 1⟩
        (fun _ => ⟨10, 10, 11, 11⟩) := by
  have hcs : (mkGrid 1).cellSize = 1 := rfl
  constructor
  · rw [mem_search]
    constructor
    · refine ⟨(0, 0), ?_, ?_⟩
      · rw [cellSize_put, hcs]
        exact (mem_hashBounds 1 one_pos _ 0 0).mpr (by norm_num)
      · rw [bucketOf_put, if_pos ?_]
        · exact Finset.mem_insert_self 0 _
        · rw [hcs]
          exact (mem_hashBounds 1 one_pos _ 0 0).mpr (by norm_num)
    · rw [intersects_iff]
      norm_num
  · intro hmem
    rw [mem_search] at hmem
    obtain ⟨_, hint⟩ := hmem
    rw [intersects_iff] at hint
    norm_num at hint

/-- C5 (amended): search evaluates an entity against the bounds the
provider reports for it at query time (the grid stores no bounds), so
the membership of an entity in a query result depends on the provider
only through its current output for that entity: two providers agreeing
on the entity give the same membership. -/
theorem c5_query_uses_current_bounds (g : Grid) (q : Rect) (e : ℕ)
    (env env2 : ℕ → Rect) (h : env e = env2 e) :
    (e ∈ search g q env ↔ e ∈ search g q env2) := by
  rw [mem_search, mem_search, h]

/-- Witness for C5 at a concrete grid and two providers agreeing on the
entity. -/
theorem c5_witness :
    (0 : ℕ) ∈ search (mkGrid 1) ⟨0, 0, 1, 1⟩ (fun _ => ⟨0, 0, 1, 1⟩) ↔
      (0 : ℕ) ∈ search (mkGrid 1) ⟨0, 0, 1, 1⟩
        (fun n => if n = 0 then ⟨0, 0, 1, 1⟩ else ⟨5, 5, 6, 6⟩) :=
  c5_query_uses_current_bounds (mkGrid 1) ⟨0, 0, 1, 1⟩ 0
    (fun _ => ⟨0, 0, 1, 1⟩) (fun n => if n = 0 then ⟨0, 0, 1, 1⟩ else ⟨5, 5, 6, 6⟩) rfl

/-- C6 counterexample: put performs no validation and raises no error.
With cellSize 1 and the malformed bounds (left 1/2, top 1/2, right 1/5,
bottom 1/5) — left greater than right and top greater than bottom — put
completes normally and creates and modifies the bucket (0,0), which
afterwards holds the entity; there is no InvalidBounds failure and the
grid state does change. -/
theorem c6_counterexample :
    bucketOf (put (mkGrid 1) 0 ⟨1/2, 1/2, 1/5, 1/5⟩) (0, 0) = {0} := by
  have hcs : (mkGrid 1).cellSize = 1 := rfl
  have hk : ((0 : ℤ), (0 : ℤ)) ∈ hashBounds (mkGrid 1).cellSize ⟨1/2, 1/2, 1/5, 1/5⟩ := by
    rw [hcs]
    exact (mem_hashBounds 1 one_pos _ 0 0).mpr (by norm_num)
  rw [bucketOf_put, if_pos hk, bucketOf_mkGrid]
  rfl

/-- C6 (amended): put never fails and performs no validation at all: for
every bounds, malformed or not, it adds the entity to exactly the
buckets in the computed cell range of the bounds (a no-op when the range
is empty), leaves every other bucket unchanged, and leaves the cell size
unchanged; there is no InvalidBounds error anywhere in the code. -/
theorem c6_put_no_validation (g : Grid) (e : ℕ) (b : Rect) (k : ℤ × ℤ) :
    (bucketOf (put g e b) k =
      if k ∈ hashBounds g.cellSize b then insert e (bucketOf g k) else bucketOf g k) ∧
      (put g e b).cellSize = g.cellSize :=
  ⟨bucketOf_put g e b k, cellSize_put g e b⟩

/-- C7 counterexample: construction performs no validation and raises no
error. Constructing with cellSize 0 — not a positive number — succeeds
and yields an ordinary grid that stores cell size 0 and has no
buckets. -/
theorem c7_counterexample :
    (mkGrid 0).cellSize = 0 ∧ (mkGrid 0).buckets = fun _ => none :=
  ⟨rfl, rfl⟩

/-- C7 (amended): construction never fails for any cell size, positive
or not (the source constructor performs no validation): it stores the
supplied cell size unchanged and yields a grid with no buckets. -/
theorem c7_constructor_no_validation (cs : ℚ) :
    (mkGrid cs).cellSize = cs ∧ (mkGrid cs).buckets = fun _ => none :=
  ⟨rfl, rfl⟩

/-- C8: remove deletes the entity from every bucket without using any
bounds: after remove the entity is in no search result for any query and
any bounds provider, and removing an entity that is in no bucket leaves
the grid exactly unchanged (and never errors). -/
theorem c8_remove_clears (g : Grid) (e : ℕ) :
    (∀ q env, e ∉ search (remove g e) q env) ∧
      (NotPresent g e → remove g e = g) := by
  constructor
  · intro q env hmem
    rw [mem_search] at hmem
    obtain ⟨⟨k, _, hbk⟩, _⟩ := hmem
    rw [bucketOf_remove] at hbk
    exact absurd hbk (Finset.not_mem_erase e _)
  · exact remove_eq_of_notPresent g e

/-- Witness for C8 at a concrete grid, with the absence hypothesis
discharged on the empty grid. -/
theorem c8_witness :
    (0 : ℕ) ∉ search (remove (mkGrid 1) 0) ⟨0, 0, 1, 1⟩ (fun _ => ⟨0, 0, 1, 1⟩) ∧
      remove (mkGrid 1) 0 = mkGrid 1 :=
  ⟨(c8_remove_clears (mkGrid 1) 0).1 ⟨0, 0, 1, 1⟩ (fun _ => ⟨0, 0, 1, 1⟩),
    (c8_remove_clears (mkGrid 1) 0).2 fun _ => Finset.not_mem_empty 0⟩

/-- C9: reset empties every bucket, so every search performed on the
reset grid, for every query rectangle and bounds provider, returns the
empty set; reset and search are total functions and never error. -/
theorem c9_reset_total (g : Grid) (q : Rect) (env : ℕ → Rect) :
    search (reset g) q env = ∅ := by
  apply Finset.eq_empty_of_forall_not_mem
  intro e hmem
  rw [mem_search] at hmem
  obtain ⟨⟨k, _, hbk⟩, _⟩ := hmem
  rw [bucketOf_reset] at hbk
  exact absurd hbk (Finset.not_mem_empty e)

theorem buckets_put_eq_none (g : Grid) (e : ℕ) (b : Rect) (k : ℤ × ℤ) :
    (put g e b).buckets k = none ↔
      (g.buckets k = none ∧ k ∉ hashBounds g.cellSize b) :=
  buckets_foldl_putCell_eq_none e _ g k

theorem isSome_buckets_put (g : Grid) (e : ℕ) (b : Rect) (k : ℤ × ℤ)
    (h : (g.buckets k).isSome = true) : ((put g e b).buckets k).isSome = true := by
  rw [Option.isSome_iff_ne_none] at h ⊢
  intro hn
  exact h ((buckets_put_eq_none g e b k).mp hn).1

theorem isSome_buckets_remove (g : Grid) (e : ℕ) (k : ℤ × ℤ)
    (h : (g.buckets k).isSome = true) : ((remove g e).buckets k).isSome = true := by
  simpa only [remove, Option.isSome_map'] using h

theorem isSome_buckets_applyOp (g : Grid) (op : Op) (k : ℤ × ℤ)
    (h : (g.buckets k).isSome = true) : ((applyOp g op).buckets k).isSome = true := by
  cases op with
  | put e b => exact isSome_buckets_put g e b k h
  | update e b => exact isSome_buckets_put _ e b k (isSome_buckets_remove g e k h)
  | remove e => exact isSome_buckets_remove g e k h
  | search b => exact h
  | reset => simpa only [applyOp, reset, Option.isSome_map'] using h

/-- C10: reset preserves the key set of the bucket map exactly — a key
is present after reset exactly when it was present before, and every
bucket present after reset is the empty set — and no operation of the
class ever deletes a key: any key present before an operation is still
present after it, so the number of buckets never decreases. -/
theorem c10_reset_keys (g : Grid) (k : ℤ × ℤ) (op : Op) :
    (((reset g).buckets k).isSome = (g.buckets k).isSome ∧
      ∀ s, (reset g).buckets k = some s → s = ∅) ∧
      ((g.buckets k).isSome = true → ((applyOp g op).buckets k).isSome = true) := by
  refine ⟨⟨?_, ?_⟩, isSome_buckets_applyOp g op k⟩
  · simp [reset, Option.isSome_map']
  · intro s hs
    simp only [reset] at hs
    cases hb : g.buckets k with
    | none => rw [hb] at hs; simp at hs
    | some s2 =>
      rw [hb] at hs
      rw [Option.map_some'] at hs
      injection hs with hs2
      exact hs2.symm

/-- Witness for C10 at a concrete grid holding one bucket, with the
key-present hypothesis discharged there. -/
theorem c10_witness :
    ((reset (put (mkGrid 1) 0 ⟨0, 0, 0, 0⟩)).buckets (0, 0)).isSome =
        ((put (mkGrid 1) 0 ⟨0, 0, 0, 0⟩).buckets (0, 0)).isSome ∧
      ((applyOp (put (mkGrid 1) 0 ⟨0, 0, 0, 0⟩) (Op.remove 0)).buckets (0, 0)).isSome = true := by
  have hsome : ((put (mkGrid 1) 0 ⟨0, 0, 0, 0⟩).buckets (0, 0)).isSome = true := by
    rw [Option.isSome_iff_ne_none]
    intro hn
    have hk : ((0 : ℤ), (0 : ℤ)) ∈ hashBounds (mkGrid 1).cellSize ⟨0, 0, 0, 0⟩ := by
      rw [(rfl : (mkGrid 1).cellSize = 1)]
      exact (mem_hashBounds 1 one_pos _ 0 0).mpr (by norm_num)
    exact ((buckets_put_eq_none (mkGrid 1) 0 ⟨0, 0, 0, 0⟩ (0, 0)).mp hn).2 hk
  exact ⟨(c10_reset_keys (put (mkGrid 1) 0 ⟨0, 0, 0, 0⟩) (0, 0) (Op.remove 0)).1.1,
    (c10_reset_keys (put (mkGrid 1) 0 ⟨0, 0, 0, 0⟩) (0, 0) (Op.remove 0)).2 hsome⟩

end PixiSpatialHash
